import Mathlib

/-!
Verification of the catalogue-synchronization and transfer engine of the
`YaDisk` cloud-storage client (`Basic_Python_Diploma/YaDisk.py`).

The remote filesystem is modelled as a finite tree of entries; remote paths
are modelled as lists of path segments (the server-issued string paths of the
source are exactly the `/`-joined segment lists).  Pure functions below are
shallow embeddings of the corresponding Python methods; HTTP calls are
parameters (response functions or concrete server states) threaded explicitly.
-/

set_option maxHeartbeats 1000000

namespace YaDisk

/-- One item of a metadata response: a remote object is a file with a size,
or a directory whose metadata query returns the list of its children
(the `_embedded.items` array of `response.json()`). -/
inductive Entry where
  | file (name : String) (size : Nat)
  | dir (name : String) (children : List Entry)
deriving Repr

/-- The `name` field of a remote item. -/
def Entry.name : Entry → String
  | .file n _ => n
  | .dir n _ => n

/-- The fields of `YaFile` that the claims under study mention
(`name`, `path`, `size`); `path` is kept as its list of segments. -/
structure YaFile where
  name : String
  path : List String
  size : Nat
deriving Repr, DecidableEq

/-- The fields of `YaFolder` that the claims under study mention. -/
structure YaFolder where
  name : String
  path : List String
  size : Nat
deriving Repr, DecidableEq

/-- The in-memory catalogue held by the client: `self.all_files` and
`self.all_folders`. -/
structure Catalogue where
  all_files : List YaFile
  all_folders : List YaFolder
deriving Repr, DecidableEq

/-- Embedding of `_parse_catalogues`: depth-first walk of the remote tree.  `p` is the
path of the directory being listed and `items` the response items for it.
A file child adds its size to the running total and appends a `YaFile`;
a directory child is recursed into first, its subtree size is attached to
its metadata (`item.update(fsize)`) and only then is the `YaFolder`
constructed and appended.  Returns the subtree's total size and the
updated catalogue. -/
def parse_catalogues (p : List String) (items : List Entry) (st : Catalogue) :
    Nat × Catalogue :=
  match items with
  | [] => (0, st)
  | .file n s :: rest =>
    let st1 : Catalogue := { st with all_files := st.all_files ++ [⟨n, p ++ [n], s⟩] }
    let r := parse_catalogues p rest st1
    (s + r.1, r.2)
  | .dir n cs :: rest =>
    let r1 := parse_catalogues (p ++ [n]) cs st
    let st2 : Catalogue :=
      { r1.2 with all_folders := r1.2.all_folders ++ [⟨n, p ++ [n], r1.1⟩] }
    let r2 := parse_catalogues p rest st2
    (r1.1 + r2.1, r2.2)
termination_by sizeOf items
decreasing_by all_goals (simp_wf <;> omega)

/-- Total size of the files of a forest (specification-side recursion). -/
def subtreeSizeL : List Entry → Nat
  | [] => 0
  | .file _ s :: rest => s + subtreeSizeL rest
  | .dir _ cs :: rest => subtreeSizeL cs + subtreeSizeL rest
termination_by items => sizeOf items
decreasing_by all_goals (simp_wf <;> omega)

/-- The file entries produced by walking the forest `items` at path `p`,
in traversal order. -/
def filesIn (p : List String) : List Entry → List YaFile
  | [] => []
  | .file n s :: rest => ⟨n, p ++ [n], s⟩ :: filesIn p rest
  | .dir n cs :: rest => filesIn (p ++ [n]) cs ++ filesIn p rest
termination_by items => sizeOf items
decreasing_by all_goals (simp_wf <;> omega)

/-- The folder entries produced by walking the forest `items` at path `p`,
in traversal order (a folder follows its whole subtree). -/
def foldersIn (p : List String) : List Entry → List YaFolder
  | [] => []
  | .file _ _ :: rest => foldersIn p rest
  | .dir n cs :: rest =>
      foldersIn (p ++ [n]) cs ++ ⟨n, p ++ [n], subtreeSizeL cs⟩ :: foldersIn p rest
termination_by items => sizeOf items
decreasing_by all_goals (simp_wf <;> omega)

/-- Names of the items of one directory listing. -/
def namesOf (items : List Entry) : List String := items.map Entry.name

/-- Well-formed remote forest: sibling names are distinct at every level
(on the real service paths are unique, so this always holds there). -/
def wfForest : List Entry → Bool
  | [] => true
  | .file n _ :: rest => !(decide (n ∈ namesOf rest)) && wfForest rest
  | .dir n cs :: rest => !(decide (n ∈ namesOf rest)) && (wfForest cs && wfForest rest)
termination_by items => sizeOf items
decreasing_by all_goals (simp_wf <;> omega)

/-- Predicate: `child` is a strict descendant path of `anc`. -/
def descendant (child anc : List String) : Bool :=
  anc.isPrefixOf child && decide (anc.length < child.length)

/-- Sum of the sizes of a list of file entries. -/
def sumSizes (fs : List YaFile) : Nat := (fs.map YaFile.size).sum

theorem parse_catalogues_fst (p : List String) (items : List Entry) (st : Catalogue) :
    (parse_catalogues p items st).1 = subtreeSizeL items := by
  induction items using subtreeSizeL.induct generalizing p st with
  | case1 => simp [parse_catalogues, subtreeSizeL]
  | case2 n s rest ih => simp [parse_catalogues, subtreeSizeL, ih]
  | case3 n cs rest ih1 ih2 => simp [parse_catalogues, subtreeSizeL, ih1, ih2]

theorem parse_catalogues_files (p : List String) (items : List Entry) (st : Catalogue) :
    (parse_catalogues p items st).2.all_files = st.all_files ++ filesIn p items := by
  induction items using subtreeSizeL.induct generalizing p st with
  | case1 => simp [parse_catalogues, filesIn]
  | case2 n s rest ih => simp [parse_catalogues, filesIn, ih]
  | case3 n cs rest ih1 ih2 => simp [parse_catalogues, filesIn, ih1, ih2]

theorem parse_catalogues_folders (p : List String) (items : List Entry) (st : Catalogue) :
    (parse_catalogues p items st).2.all_folders = st.all_folders ++ foldersIn p items := by
  induction items using subtreeSizeL.induct generalizing p st with
  | case1 => simp [parse_catalogues, foldersIn]
  | case2 n s rest ih => simp [parse_catalogues, foldersIn, ih]
  | case3 n cs rest ih1 ih2 =>
      simp [parse_catalogues, foldersIn, ih1, ih2, parse_catalogues_fst]

theorem sumSizes_append (a b : List YaFile) :
    sumSizes (a ++ b) = sumSizes a + sumSizes b := by
  simp [sumSizes]

theorem sumSizes_filesIn (p : List String) (items : List Entry) :
    sumSizes (filesIn p items) = subtreeSizeL items := by
  induction items using subtreeSizeL.induct generalizing p with
  | case1 => simp [filesIn, subtreeSizeL, sumSizes]
  | case2 n s rest ih => simp [filesIn, subtreeSizeL, sumSizes] at *; simp [ih]
  | case3 n cs rest ih1 ih2 =>
      simp [filesIn, subtreeSizeL, sumSizes_append, ih1, ih2]

theorem mem_filesIn_path (p : List String) (items : List Entry) (f : YaFile)
    (h : f ∈ filesIn p items) :
    ∃ n t, n ∈ namesOf items ∧ f.path = p ++ n :: t := by
  induction p, items using filesIn.induct with
  | case1 => simp [filesIn] at h
  | case2 p n s rest ih =>
      rw [filesIn] at h
      rcases List.mem_cons.mp h with h1 | h2
      · exact ⟨n, [], by simp [namesOf, Entry.name], by simp [h1]⟩
      · obtain ⟨m, t, hm, hp⟩ := ih h2
        exact ⟨m, t, by simp [namesOf, Entry.name] at hm ⊢; exact Or.inr hm, hp⟩
  | case3 p n cs rest ih1 ih2 =>
      rw [filesIn] at h
      rcases List.mem_append.mp h with h1 | h2
      · obtain ⟨m, t, _, hp⟩ := ih1 h1
        exact ⟨n, m :: t, by simp [namesOf, Entry.name], by simp [hp]⟩
      · obtain ⟨m, t, hm, hp⟩ := ih2 h2
        exact ⟨m, t, by simp [namesOf, Entry.name] at hm ⊢; exact Or.inr hm, hp⟩

theorem mem_foldersIn_path (p : List String) (items : List Entry) (fo : YaFolder)
    (h : fo ∈ foldersIn p items) :
    ∃ n t, n ∈ namesOf items ∧ fo.path = p ++ n :: t := by
  induction p, items using foldersIn.induct with
  | case1 => simp [foldersIn] at h
  | case2 p n s rest ih =>
      rw [foldersIn] at h
      obtain ⟨m, t, hm, hp⟩ := ih h
      exact ⟨m, t, by simp [namesOf, Entry.name] at hm ⊢; exact Or.inr hm, hp⟩
  | case3 p n cs rest ih1 ih2 =>
      rw [foldersIn] at h
      rcases List.mem_append.mp h with h1 | h2
      · obtain ⟨m, t, _, hp⟩ := ih1 h1
        exact ⟨n, m :: t, by simp [namesOf, Entry.name], by simp [hp]⟩
      · rcases List.mem_cons.mp h2 with h3 | h4
        · exact ⟨n, [], by simp [namesOf, Entry.name], by simp [h3]⟩
        · obtain ⟨m, t, hm, hp⟩ := ih2 h4
          exact ⟨m, t, by simp [namesOf, Entry.name] at hm ⊢; exact Or.inr hm, hp⟩

theorem seg_head_eq {p : List String} {a b : String} {t s : List String}
    (h : (p ++ a :: t) <+: (p ++ b :: s)) : a = b := by
  obtain ⟨u, hu⟩ := h
  rw [List.append_assoc] at hu
  have h2 := List.append_cancel_left hu
  simpa using congrArg (fun l => l.head?) h2

theorem descendant_false {p : List String} {a b : String} {t s : List String}
    (hne : a ≠ b) : descendant (p ++ a :: t) (p ++ b :: s) = false := by
  rw [descendant]
  apply Bool.and_eq_false_iff.mpr
  left
  rw [Bool.eq_false_iff]
  intro hpre
  exact hne (seg_head_eq ( List.isPrefixOf_iff_prefix.mp hpre)).symm

theorem descendant_extend (q : List String) (m : String) (t : List String) :
    descendant (q ++ m :: t) q = true := by
  rw [descendant]
  apply Bool.and_eq_true_iff.mpr
  constructor
  · exact List.isPrefixOf_iff_prefix.mpr ⟨m :: t, rfl⟩
  · simp

theorem foldersIn_size : ∀ (p : List String) (items : List Entry),
    wfForest items = true → ∀ fo ∈ foldersIn p items,
    sumSizes ((filesIn p items).filter (fun f => descendant f.path fo.path)) = fo.size := by
  intro p items
  induction p, items using foldersIn.induct with
  | case1 =>
      intro _ fo hfo
      simp [foldersIn] at hfo
  | case2 p n s rest ih =>
      intro hwf fo hfo
      rw [wfForest] at hwf
      simp only [Bool.and_eq_true, Bool.not_eq_true', decide_eq_false_iff_not] at hwf
      rw [foldersIn] at hfo
      obtain ⟨m, t, hm, hp⟩ := mem_foldersIn_path p rest fo hfo
      rw [filesIn]
      rw [List.filter_cons_of_neg]
      · exact ih hwf.2 fo hfo
      · simp only [hp]
        have : p ++ [n] = p ++ n :: ([] : List String) := rfl
        rw [this, descendant_false]
        · simp
        · intro hnm; exact hwf.1 (hnm ▸ hm)
  | case3 p n cs rest ih1 ih2 =>
      intro hwf fo hfo
      rw [wfForest] at hwf
      simp only [Bool.and_eq_true, Bool.not_eq_true', decide_eq_false_iff_not] at hwf
      rw [foldersIn] at hfo
      rw [filesIn, List.filter_append, sumSizes_append]
      rcases List.mem_append.mp hfo with h1 | h2
      · -- fo comes from inside the subtree of `dir n cs`
        obtain ⟨m', t', _, hp'⟩ := mem_foldersIn_path (p ++ [n]) cs fo h1
        have hB : (filesIn p rest).filter (fun f => descendant f.path fo.path) = [] := by
          rw [List.filter_eq_nil_iff]
          intro f hf
          obtain ⟨m, t, hm, hp⟩ := mem_filesIn_path p rest f hf
          have hmn : m ≠ n := fun hc => hwf.1 (hc ▸ hm)
          rw [hp, hp']
          have : (p ++ [n]) ++ m' :: t' = p ++ n :: (m' :: t') := by simp
          rw [this, descendant_false hmn]
          simp
        rw [hB]
        simpa [sumSizes] using ih1 hwf.2.1 fo h1
      · rcases List.mem_cons.mp h2 with h3 | h4
        · -- fo is the folder entry for `dir n cs` itself
          have hA : (filesIn (p ++ [n]) cs).filter (fun f => descendant f.path fo.path)
              = filesIn (p ++ [n]) cs := by
            rw [List.filter_eq_self]
            intro f hf
            obtain ⟨m, t, _, hp⟩ := mem_filesIn_path (p ++ [n]) cs f hf
            rw [hp, h3]
            exact descendant_extend (p ++ [n]) m t
          have hB : (filesIn p rest).filter (fun f => descendant f.path fo.path) = [] := by
            rw [List.filter_eq_nil_iff]
            intro f hf
            obtain ⟨m, t, hm, hp⟩ := mem_filesIn_path p rest f hf
            have hmn : m ≠ n := fun hc => hwf.1 (hc ▸ hm)
            rw [hp, h3]
            have : p ++ [n] = p ++ n :: ([] : List String) := rfl
            rw [this, descendant_false hmn]
            simp
          rw [hA, hB, sumSizes_filesIn, h3]
          simp [sumSizes]
        · -- fo comes from the remaining siblings
          obtain ⟨m', t', hm', hp'⟩ := mem_foldersIn_path p rest fo h4
          have hmn : m' ≠ n := fun hc => hwf.1 (hc ▸ hm')
          have hA : (filesIn (p ++ [n]) cs).filter (fun f => descendant f.path fo.path)
              = [] := by
            rw [List.filter_eq_nil_iff]
            intro f hf
            obtain ⟨m, t, _, hp⟩ := mem_filesIn_path (p ++ [n]) cs f hf
            rw [hp, hp']
            have : (p ++ [n]) ++ m :: t = p ++ n :: (m :: t) := by simp
            rw [this, descendant_false (fun hc => hmn hc.symm)]
            simp
          rw [hA]
          simpa [sumSizes] using ih2 hwf.2.2 fo h4

/-- C1: after any catalogue walk (from an empty catalogue, at any root path),
every `YaFolder` in `all_folders` has `size` equal to the sum of the sizes of
all `YaFile` entries whose path is a strict descendant of the folder's path,
and the walk returns the total size of the subtree rooted at the root path.
(The folder's size is attached to its metadata before the `YaFolder` is
constructed and appended — this is structural in `parse_catalogues`.)
Sibling names are distinct on the remote service (`wfForest`). -/
theorem catalogue_walk_size_invariant (p : List String) (items : List Entry)
    (hwf : wfForest items = true) :
    (parse_catalogues p items ⟨[], []⟩).1 = subtreeSizeL items ∧
    ∀ fo ∈ (parse_catalogues p items ⟨[], []⟩).2.all_folders,
      sumSizes (((parse_catalogues p items ⟨[], []⟩).2.all_files).filter
        (fun f => descendant f.path fo.path)) = fo.size := by
  refine ⟨parse_catalogues_fst p items ⟨[], []⟩, ?_⟩
  intro fo hfo
  rw [parse_catalogues_files]
  rw [parse_catalogues_folders] at hfo
  simp only [List.nil_append] at hfo ⊢
  exact foldersIn_size p items hwf fo hfo

/-- A synthetic remote tree of depth 3 used to exercise the walk. -/
def demoTree : List Entry :=
  [ .dir "a"
      [ .dir "b" [ .file "c.txt" 5, .dir "d" [ .file "e.bin" 7 ] ],
        .file "f.txt" 11 ],
    .file "g.txt" 13 ]

theorem catalogue_walk_size_invariant_witness :
    wfForest demoTree = true ∧
    ((parse_catalogues [] demoTree ⟨[], []⟩).1 = subtreeSizeL demoTree ∧
    ∀ fo ∈ (parse_catalogues [] demoTree ⟨[], []⟩).2.all_folders,
      sumSizes (((parse_catalogues [] demoTree ⟨[], []⟩).2.all_files).filter
        (fun f => descendant f.path fo.path)) = fo.size) :=
  ⟨by simp [demoTree, wfForest, namesOf, Entry.name],
   catalogue_walk_size_invariant [] demoTree
     (by simp [demoTree, wfForest, namesOf, Entry.name])⟩

/-! ## Folder creation (`create_folder`) -/

/-- Outcome reported by the creation logic of `create_folder`. -/
inductive CreateResult where
  | created
  | alreadyExists
  | createFailed (status : Nat) (msg : String)
  | testFailed (status : Nat)
deriving Repr, DecidableEq

/-- An abstract metadata/creation API with explicit server state `σ`:
`get s p` is the status code of `GET <endpoint>?path=p` and `put s p`
the status code, response body and new server state of
`PUT <endpoint>?path=p`. -/
structure Api (σ : Type) where
  get : σ → String → Nat
  put : σ → String → Nat × String × σ

/-- Embedding of `create_folder` (its creation logic; the interactive parent picker is
caller-supplied per the spec, and the trailing `reload`/`print_all` only
re-read server state): `GET` the target path; on 404, `PUT` it and report
success for 201 or surface the creation response verbatim otherwise; on 200
report "already exists" without issuing any `PUT`; any other test status is
surfaced verbatim with no `PUT`. -/
def create_folder {σ : Type} (A : Api σ) (s : σ) (path : String) :
    CreateResult × σ :=
  let test := A.get s path
  if test = 404 then
    let r := A.put s path
    if r.1 = 201 then (.created, r.2.2) else (.createFailed r.1 r.2.1, r.2.2)
  else if test = 200 then (.alreadyExists, s)
  else (.testFailed test, s)

/-- The honest remote folder store: the server state is the list of existing
folder paths, `GET` answers 200 exactly on existing paths (404 otherwise),
and a `PUT` on a fresh path answers 201 and records the folder. -/
def folderStore : Api (List String) where
  get s p := if p ∈ s then 200 else 404
  put s p :=
    if p ∈ s then (409, "DiskPathPointsToExistentDirectoryError", s)
    else (201, "href", p :: s)

/-- C2: folder creation is idempotent.  (a) Whenever the metadata query for
the target answers 200, `create_folder` is a no-op reported as "already
exists".  (b) Against the honest store, calling `create_folder` twice on the
same path reports "already exists" the second time, changes nothing the
second time, and leaves a duplicate-free folder list — so the catalogue
rebuilt by `reload` (which lists exactly the server's folders) has no
duplicate entry.  (c) A creation response whose status is not 201 is
surfaced verbatim (status and body) and nothing further is created.
(d) A test status other than 404/200 is surfaced verbatim with no `PUT`. -/
theorem create_folder_idempotent :
    (∀ (σ : Type) (A : Api σ) (s : σ) (path : String),
      A.get s path = 200 → create_folder A s path = (.alreadyExists, s)) ∧
    (∀ (s : List String) (path : String), s.Nodup →
      (create_folder folderStore (create_folder folderStore s path).2 path).1
          = .alreadyExists ∧
      (create_folder folderStore (create_folder folderStore s path).2 path).2
          = (create_folder folderStore s path).2 ∧
      (create_folder folderStore s path).2.Nodup) ∧
    (∀ (σ : Type) (A : Api σ) (s : σ) (path : String),
      A.get s path = 404 → (A.put s path).1 ≠ 201 →
      create_folder A s path
        = (.createFailed (A.put s path).1 (A.put s path).2.1, (A.put s path).2.2)) ∧
    (∀ (σ : Type) (A : Api σ) (s : σ) (path : String),
      A.get s path ≠ 404 → A.get s path ≠ 200 →
      create_folder A s path = (.testFailed (A.get s path), s)) := by
  refine ⟨?_, ?_, ?_, ?_⟩
  · intro σ A s path h
    simp [create_folder, h]
  · intro s path hnd
    by_cases hmem : path ∈ s
    · simp [create_folder, folderStore, hmem, hnd]
    · simp [create_folder, folderStore, hmem, hnd]
  · intro σ A s path hget hput
    simp [create_folder, hget, hput]
  · intro σ A s path h404 h200
    simp [create_folder, h404, h200]

theorem create_folder_idempotent_witness :
    (folderStore.get ["photos"] "photos" = 200 ∧
      create_folder folderStore ["photos"] "photos" = (.alreadyExists, ["photos"])) ∧
    (["docs"].Nodup ∧
      (create_folder folderStore
        (create_folder folderStore ["docs"] "photos").2 "photos").1 = .alreadyExists) :=
  ⟨⟨by decide,
    create_folder_idempotent.1 (List String) folderStore ["photos"] "photos" (by decide)⟩,
   ⟨by decide,
    (create_folder_idempotent.2.1 ["docs"] "photos" (by decide)).1⟩⟩

/-! ## Deletion (`delete` and its `_check_existance` poll) -/

/-- Embedding of `_check_existance`: issue an existence `GET` for the deleted path and
keep re-issuing it while the status is not 404; report `"OK"` once a query
answered 404.  `f k` is the status of the `k`-th query.  The Python loop is
unbounded, so it is modelled with explicit fuel: `none` means the loop is
still spinning after `fuel` queries. -/
def check_existance (f : Nat → Nat) : Nat → Nat → Option String
  | _, 0 => none
  | k, fuel + 1 => if f k = 404 then some "OK" else check_existance f (k + 1) fuel

theorem check_existance_found (f : Nat → Nat) :
    ∀ (fuel k : Nat) (r : String), check_existance f k fuel = some r →
      r = "OK" ∧ ∃ n, k ≤ n ∧ f n = 404 := by
  intro fuel
  induction fuel with
  | zero => intro k r h; simp [check_existance] at h
  | succ m ih =>
      intro k r h
      rw [check_existance] at h
      by_cases h404 : f k = 404
      · simp [h404] at h
        exact ⟨h.symm, k, le_refl k, h404⟩
      · simp [h404] at h
        obtain ⟨hr, n, hk, hn⟩ := ih (k + 1) r h
        exact ⟨hr, n, le_trans (Nat.le_succ k) hk, hn⟩

/-- C3: the delete poll is a synchronous wait-for-consistency barrier.
If `_check_existance` returns at all, it returns `"OK"`, some existence
query has answered 404, and — since a deleted object stays deleted
(`hmono`) — every subsequent existence query for that path answers 404:
no race window is visible to the caller. -/
theorem delete_poll_barrier (f : Nat → Nat) (fuel : Nat) (r : String)
    (hret : check_existance f 0 fuel = some r)
    (hmono : ∀ m n : Nat, m ≤ n → f m = 404 → f n = 404) :
    r = "OK" ∧ ∃ n, f n = 404 ∧ ∀ m, n ≤ m → f m = 404 := by
  obtain ⟨hr, n, _, hn⟩ := check_existance_found f fuel 0 r hret
  exact ⟨hr, n, hn, fun m hm => hmono n m hm hn⟩

theorem delete_poll_barrier_witness :
    check_existance (fun k => if k < 2 then 202 else 404) 0 5 = some "OK" ∧
    ∃ n, (fun k : Nat => if k < 2 then 202 else 404) n = 404 ∧
      ∀ m, n ≤ m → (fun k : Nat => if k < 2 then 202 else 404) m = 404 :=
  ⟨by decide,
   (delete_poll_barrier (fun k => if k < 2 then 202 else 404) 5 "OK" (by decide)
     (by intro m n hmn hm; simp at hm ⊢; omega)).2⟩

/-! ## Batch deletion (the list branch of `delete`) -/

/-- Embedding of the list branch of `delete`: for each object path in list
order, issue the `DELETE` request (`R p` gives its status and response
body); on the first status ≥ 300, return that status and body at once,
together with the server state at that moment (deletions already performed
stand); otherwise the existence poll confirms removal (the path leaves the
server state) and the next object is processed. -/
def delete_list (R : String → Nat × String) :
    List String → List String → ((Nat × String) × List String) ⊕ List String
  | [], state => .inr state
  | o :: rest, state =>
    if (R o).1 ≥ 300 then .inl (R o, state)
    else delete_list R rest (state.erase o)

/-- C4: a batch delete processes objects sequentially in list order; at the
first deletion response with status ≥ 300 it returns that status and body
immediately, the remaining objects are untouched (the result does not
depend on `post`), and the deletions already completed are not rolled back
(the server state still has every earlier object erased). -/
theorem delete_batch_first_failure (R : String → Nat × String)
    (pre : List String) (bad : String) (post : List String) (state : List String)
    (hpre : ∀ p ∈ pre, (R p).1 < 300) (hbad : (R bad).1 ≥ 300) :
    delete_list R (pre ++ bad :: post) state
      = .inl (R bad, pre.foldl (fun s p => s.erase p) state) := by
  induction pre generalizing state with
  | nil => simp [delete_list, hbad]
  | cons p ps ih =>
      have hp := hpre p (by simp)
      rw [List.cons_append, delete_list, if_neg (by omega)]
      simp only [List.foldl_cons]
      exact ih (state.erase p) (fun q hq => hpre q (by simp [hq]))

/-- Delete responses used to exercise the batch: deleting "bad" fails. -/
def demoDeleteResp (p : String) : Nat × String :=
  if p = "bad" then (404, "not found") else (204, "")

theorem delete_batch_first_failure_witness :
    (∀ p ∈ ["a", "b"], (demoDeleteResp p).1 < 300) ∧
    (demoDeleteResp "bad").1 ≥ 300 ∧
    delete_list demoDeleteResp (["a", "b"] ++ "bad" :: ["c"]) ["a", "b", "bad", "c"]
      = .inl (demoDeleteResp "bad",
          (["a", "b"]).foldl (fun s p => s.erase p) ["a", "b", "bad", "c"]) :=
  ⟨by decide, by decide,
   delete_batch_first_failure demoDeleteResp ["a", "b"] "bad" ["c"]
     ["a", "b", "bad", "c"] (by decide) (by decide)⟩

/-! ## Target-folder existence (`_check_folder_exist`) -/

/-- A `path` request parameter as the source actually passes it: normally a
string, but one call site passes a whole Python list of path segments. -/
inductive PathArg where
  | str (p : String)
  | list (ps : List String)
deriving Repr, DecidableEq

/-- Worker for `pySplit`, fuelled by the length of the string so that it is
structurally recursive (and hence computable by the kernel). -/
def pySplitGo (sep : List Char) : Nat → List Char → List Char → List (List Char)
  | _, [], acc => [acc.reverse]
  | 0, s, acc => [acc.reverse ++ s]
  | fuel + 1, c :: rest, acc =>
    if sep.isPrefixOf (c :: rest) then
      acc.reverse :: pySplitGo sep fuel (List.drop (sep.length - 1) rest) []
    else pySplitGo sep fuel rest (c :: acc)

/-- Embedding of Python `s.split(sep)` for a nonempty separator: splits on
every non-overlapping occurrence of `sep`, left to right. -/
def pySplit (sep s : String) : List String :=
  (pySplitGo sep.toList s.toList.length s.toList []).map (fun l => String.mk l)

/-- Does `sub` occur as a contiguous sublist of `s`? -/
def isSubList (sub : List Char) : List Char → Bool
  | [] => sub.isPrefixOf []
  | c :: rest => sub.isPrefixOf (c :: rest) || isSubList sub rest

/-- Embedding of the Python substring test `sub in s`. -/
def pyIn (sub s : String) : Bool := isSubList sub.toList s.toList

/-- Embedding of `_check_folder_exist`: `get` is the status of a metadata
query; the value is the list of `create_folder` calls issued, in order,
as (folder_name, path parameter) pairs.  In the both-missing branch the
source passes the whole split list as the path of the first call
(`self.create_folder(folder_name, folder)` with `folder` the list
`target_folderpath.split("/")`). -/
def check_folder_exist (get : String → Nat) (folder_name target_folderpath : String) :
    List (String × PathArg) :=
  let test := get target_folderpath
  if pyIn "/" target_folderpath then
    if test = 404 then
      let folder := pySplit "/" target_folderpath
      let test2 := get (folder.headD "")
      if test2 = 404 then
        [(folder.headD "", .list folder), (folder.getLastD "", .str target_folderpath)]
      else
        [(folder_name, .str target_folderpath)]
    else []
  else
    [(folder_name, .str target_folderpath)]

/-- C5 (failing input): with both `photos/album` and `photos` absent (every
metadata query answers 404), `_check_folder_exist` issues its first
`create_folder` call with the whole split list `["photos", "album"]` as the
`path` parameter — not the first path segment `"photos"` that the claim
says is created — and then the creation of the full path. -/
theorem check_folder_exist_list_path_bug :
    check_folder_exist (fun _ => 404) "album" "photos/album"
      = [("photos", .list ["photos", "album"]), ("album", .str "photos/album")] ∧
    PathArg.list ["photos", "album"] ≠ PathArg.str "photos" := by
  decide

/-! ## Upload target for `.zip` objects (the zip branch of `upload`) -/

/-- Catalogue entry metadata as the upload matching reads it: `name` and the
server-issued string `path` (`disk:/...`). -/
structure FileMeta where
  name : String
  path : String
deriving Repr, DecidableEq

/-- Folder metadata as the upload matching reads it. -/
structure FolderMeta where
  name : String
  path : String
deriving Repr, DecidableEq

/-- Python `s.split(".")[0]`: the entry name with all its extensions cut. -/
def baseName (s : String) : String := (pySplit "." s).headD ""

/-- Python `s.split(".zip")[0]`: the object name up to its first `.zip`. -/
def stripZip (s : String) : String := (pySplit ".zip" s).headD ""

/-- Python `path.split("/" + name)[0]`: the parent folder of an entry. -/
def parentOf (path name : String) : String := (pySplit ("/" ++ name) path).headD ""

/-- Embedding of the `.zip` branch of `upload`: strip `.zip` from the object
name, scan `all_files` for the first entry whose extension-stripped name
matches and upload into that entry's parent folder; only if no file matches,
scan `all_folders` the same way; if neither matches, no upload happens. -/
def upload_zip_target (object : String) (all_files : List FileMeta)
    (all_folders : List FolderMeta) : Option String :=
  let name := stripZip object
  match all_files.find? (fun f => baseName f.name == name) with
  | some f => some (parentOf f.path f.name)
  | none =>
    match all_folders.find? (fun fo => baseName fo.name == name) with
    | some fo => some (parentOf fo.path fo.name)
    | none => none

theorem find?_first {α : Type} (p : α → Bool) (pre : List α) (a : α) (post : List α)
    (hpre : ∀ x ∈ pre, ¬ p x = true) (ha : p a = true) :
    (pre ++ a :: post).find? p = some a := by
  induction pre with
  | nil => simp [List.find?_cons_of_pos, ha]
  | cons x xs ih =>
      rw [List.cons_append, List.find?_cons_of_neg]
      · exact ih (fun y hy => hpre y (by simp [hy]))
      · exact hpre x (by simp)

/-- C6: for an uploaded `.zip` object, the target folder is the parent of
the first entry of `all_files` whose extension-stripped name equals the
object's name with `.zip` stripped; only when no file matches is the first
matching entry of `all_folders` used. -/
theorem upload_zip_first_match (object : String) (files : List FileMeta)
    (folders : List FolderMeta) :
    (∀ (pre : List FileMeta) (f : FileMeta) (post : List FileMeta),
      files = pre ++ f :: post →
      baseName f.name = stripZip object →
      (∀ g ∈ pre, baseName g.name ≠ stripZip object) →
      upload_zip_target object files folders = some (parentOf f.path f.name)) ∧
    ((∀ g ∈ files, baseName g.name ≠ stripZip object) →
      ∀ (pre : List FolderMeta) (fo : FolderMeta) (post : List FolderMeta),
      folders = pre ++ fo :: post →
      baseName fo.name = stripZip object →
      (∀ g ∈ pre, baseName g.name ≠ stripZip object) →
      upload_zip_target object files folders = some (parentOf fo.path fo.name)) := by
  constructor
  · intro pre f post hsplit hf hpre
    rw [upload_zip_target, hsplit,
      find?_first _ pre f post (fun x hx => by simp [hpre x hx]) (by simp [hf])]
  · intro hnone pre fo post hsplit hfo hpre
    rw [upload_zip_target]
    rw [List.find?_eq_none.mpr (fun x hx => by simp [hnone x hx])]
    rw [hsplit, find?_first _ pre fo post (fun x hx => by simp [hpre x hx]) (by simp [hfo])]

theorem upload_zip_first_match_witness :
    ([⟨"notes.txt", "disk:/docs/notes.txt"⟩, ⟨"report.doc", "disk:/work/report.doc"⟩]
        = ([⟨"notes.txt", "disk:/docs/notes.txt"⟩] : List FileMeta)
            ++ (⟨"report.doc", "disk:/work/report.doc"⟩ : FileMeta) :: [] ∧
      baseName "report.doc" = stripZip "report.zip" ∧
      (∀ g ∈ ([⟨"notes.txt", "disk:/docs/notes.txt"⟩] : List FileMeta),
        baseName g.name ≠ stripZip "report.zip")) ∧
    upload_zip_target "report.zip"
        [⟨"notes.txt", "disk:/docs/notes.txt"⟩, ⟨"report.doc", "disk:/work/report.doc"⟩]
        [⟨"report", "disk:/misc/report"⟩]
      = some (parentOf "disk:/work/report.doc" "report.doc") :=
  ⟨⟨by decide, by decide, by decide⟩,
   (upload_zip_first_match "report.zip"
      [⟨"notes.txt", "disk:/docs/notes.txt"⟩, ⟨"report.doc", "disk:/work/report.doc"⟩]
      [⟨"report", "disk:/misc/report"⟩]).1
     [⟨"notes.txt", "disk:/docs/notes.txt"⟩] ⟨"report.doc", "disk:/work/report.doc"⟩ []
     (by decide) (by decide) (by decide)⟩

/-! ## Top-10 report (`top10`) -/

/-- Embedding of the selection made by `top10`:
`sorted(collection, key=lambda obj: obj.size, reverse=True)[:10]` — a stable
sort, descending by size, truncated to the first ten entries (Python's
`sorted` is stable and `reverse=True` keeps equal keys in original order,
exactly as `List.mergeSort` with this comparator). -/
def top10_selection (collection : List YaFile) : List YaFile :=
  (collection.mergeSort (fun a b => decide (b.size ≤ a.size))).take 10

/-- C7: `top10` on the file collection yields at most 10 entries, sorted by size in
descending order, and entries of any given size keep the relative order of
their first appearance in `all_files` (the selection restricted to one size
class is a prefix of `all_files` restricted to that class). -/
theorem top10_sorted_stable (files : List YaFile) :
    (top10_selection files).length ≤ 10 ∧
    (top10_selection files).Pairwise (fun a b => b.size ≤ a.size) ∧
    ∀ s : Nat, (top10_selection files).filter (fun f => f.size == s)
        <+: files.filter (fun f => f.size == s) := by
  have htrans : ∀ a b c : YaFile, decide (b.size ≤ a.size) = true →
      decide (c.size ≤ b.size) = true → decide (c.size ≤ a.size) = true := by
    intro a b c h1 h2
    simp only [decide_eq_true_eq] at *
    omega
  have htotal : ∀ a b : YaFile,
      (decide (b.size ≤ a.size) || decide (a.size ≤ b.size)) = true := by
    intro a b
    simp only [Bool.or_eq_true, decide_eq_true_eq]
    omega
  refine ⟨?_, ?_, ?_⟩
  · rw [top10_selection, List.length_take]
    exact min_le_left 10 _
  · have hs := List.sorted_mergeSort htrans htotal files
    have hsub : (top10_selection files).Sublist
        (files.mergeSort (fun a b => decide (b.size ≤ a.size))) :=
      List.take_sublist 10 _
    exact (hs.sublist hsub).imp (fun h => by simpa using h)
  · intro s
    set le : YaFile → YaFile → Bool := fun a b => decide (b.size ≤ a.size) with hle
    set p : YaFile → Bool := fun f => f.size == s with hp
    have hstep1 : (files.mergeSort le).filter p = files.filter p := by
      have hsubf : (files.filter p).Sublist files := List.filter_sublist files
      have hpw : (files.filter p).Pairwise (fun a b => le a b = true) := by
        apply List.pairwise_of_forall_mem_list
        intro a ha b hb
        have ha2 := (List.mem_filter.mp ha).2
        have hb2 := (List.mem_filter.mp hb).2
        simp only [hp, beq_iff_eq] at ha2 hb2
        simp [hle, ha2, hb2]
      have h1 : (files.filter p).Sublist (files.mergeSort le) :=
        List.sublist_mergeSort htrans htotal hpw hsubf
      have h3 : (files.filter p).Sublist ((files.mergeSort le).filter p) := by
        have := h1.filter p
        rwa [List.filter_filter, show (fun a => p a && p a) = p by
          funext a; cases p a <;> simp] at this
      have h4 : ((files.mergeSort le).filter p).Perm (files.filter p) :=
        (files.mergeSort_perm le).filter p
      exact (h3.eq_of_length h4.length_eq.symm).symm
    have hpr := List.take_prefix 10 (files.mergeSort le)
    have := List.IsPrefix.filter p hpr
    rw [hstep1] at this
    exact this

/-! ## Folder upload (`_upload_folder`, `_upload_file`, directory branch of `upload`) -/

/-- An immediate child of a local directory, as `os.listdir` reports it; a
subdirectory carries its own children so that "the walk does not descend"
is expressible (the source never reads them). -/
inductive LocalEntry where
  | lfile (name : String)
  | ldir (name : String) (children : List LocalEntry)
deriving Repr

/-- The `os.listdir` name of a local entry. -/
def LocalEntry.name : LocalEntry → String
  | .lfile n => n
  | .ldir n _ => n

/-- What happened to one object during an upload batch. -/
inductive UpEvent where
  | uploaded
  | skippedAlready
deriving Repr, DecidableEq

/-- Embedding of `_upload_folder`: iterate over `os.listdir(folder_path)` in
order; for each entry request an upload URL for `folder_path/<name>` —
`resp` yields `some href`, or `none` when the response lacks the `href`
field, in which case the `KeyError` is caught and the entry is reported as
already uploaded; with an `href` in hand the source `open`s the local path
for reading and streams it, and on a subdirectory that `open` raises an
uncaught `IsADirectoryError`, aborting the whole upload. -/
def upload_folder (resp : String → Option String) (folder_path : String) :
    List LocalEntry → Except String (List (String × UpEvent))
  | [] => .ok []
  | e :: rest =>
    match resp (folder_path ++ "/" ++ e.name) with
    | none =>
      match upload_folder resp folder_path rest with
      | .ok evs => .ok ((e.name, .skippedAlready) :: evs)
      | .error err => .error err
    | some _ =>
      match e with
      | .ldir n _ => .error ("IsADirectoryError: " ++ folder_path ++ "/" ++ n)
      | .lfile n =>
        match upload_folder resp folder_path rest with
        | .ok evs => .ok ((n, .uploaded) :: evs)
        | .error err => .error err

/-- Embedding of `_upload_file`: a missing `href` field in the upload-URL
response (`KeyError`) is caught and reported as already uploaded, otherwise
the content is streamed to the returned upload URL. -/
def upload_file (resp_href : Option String) : UpEvent :=
  match resp_href with
  | some _ => .uploaded
  | none => .skippedAlready

theorem upload_folder_cons (resp : String → Option String) (fp : String)
    (e : LocalEntry) (rest : List LocalEntry) :
    upload_folder resp fp (e :: rest)
      = match resp (fp ++ "/" ++ e.name) with
        | none =>
          match upload_folder resp fp rest with
          | .ok evs => .ok ((e.name, UpEvent.skippedAlready) :: evs)
          | .error err => .error err
        | some _ =>
          match e with
          | .ldir n _ => .error ("IsADirectoryError: " ++ fp ++ "/" ++ n)
          | .lfile n =>
            match upload_folder resp fp rest with
            | .ok evs => .ok ((n, UpEvent.uploaded) :: evs)
            | .error err => .error err := rfl

/-- C8: an upload-URL response lacking the expected `href` field is treated
as "already uploaded": the object is skipped, the rest of the batch
continues exactly as it would have without that object (in particular the
missing field itself never turns the batch into a failure), and a
single-file upload with a missing `href` is a skip, not an error. -/
theorem upload_missing_href_skipped :
    (∀ (resp : String → Option String) (fp : String) (e : LocalEntry)
        (rest : List LocalEntry),
      resp (fp ++ "/" ++ e.name) = none →
      upload_folder resp fp (e :: rest)
        = (upload_folder resp fp rest).map
            (fun evs => (e.name, UpEvent.skippedAlready) :: evs)) ∧
    upload_file none = .skippedAlready := by
  constructor
  · intro resp fp e rest h
    rw [upload_folder_cons, h]
    cases upload_folder resp fp rest <;> simp [Except.map]
  · rfl

theorem upload_missing_href_skipped_witness :
    ((fun p => if p = "d/a.txt" then none else some "u") ("d" ++ "/" ++ (LocalEntry.lfile "a.txt").name) = none) ∧
    upload_folder (fun p => if p = "d/a.txt" then none else some "u") "d"
        (.lfile "a.txt" :: [.lfile "b.txt"])
      = (upload_folder (fun p => if p = "d/a.txt" then none else some "u") "d"
          [.lfile "b.txt"]).map
          (fun evs => ((LocalEntry.lfile "a.txt").name, UpEvent.skippedAlready) :: evs) :=
  ⟨by decide,
   upload_missing_href_skipped.1 (fun p => if p = "d/a.txt" then none else some "u")
     "d" (.lfile "a.txt") [.lfile "b.txt"] (by decide)⟩

/-- Embedding of the local-directory branch of `upload`: ensure the mirrored
remote folder exists (`_check_folder_exist`), then upload the immediate
children of the directory (`_upload_folder` over `os.listdir`). -/
def upload_dir (get : String → Nat) (resp : String → Option String)
    (object target_folderpath : String) (entries : List LocalEntry) :
    List (String × PathArg) × Except String (List (String × UpEvent)) :=
  (check_folder_exist get object target_folderpath,
   upload_folder resp target_folderpath entries)

/-- C9 (counterexample): when the directory contains a subdirectory whose
upload-URL request returns an `href`, the batch aborts with an uncaught
`IsADirectoryError` before reaching later children, so the immediate child
file `a.txt` is never uploaded — the claim that every immediate child file
is uploaded fails on this input. -/
theorem upload_dir_subdir_aborts :
    (upload_dir (fun _ => 200) (fun _ => some "u") "docs" "docs"
        [.ldir "sub" [], .lfile "a.txt"]).2
      = .error "IsADirectoryError: docs/sub" := by
  rfl

/-- Cut the contents of every immediate subdirectory. -/
def pruneChildren : LocalEntry → LocalEntry
  | .lfile n => .lfile n
  | .ldir n _ => .ldir n []

/-- C9 (amended): the directory branch ensures the mirrored remote folder
exists and iterates over exactly the immediate children of the directory,
never descending into subdirectories (pruning every subdirectory's contents
leaves the upload unchanged); when every immediate child is a regular file,
every child is uploaded — or skipped as already uploaded when its
upload-URL response lacks `href` — and nothing else.  (An `href`-bearing
subdirectory child instead aborts the batch, see the counterexample.) -/
theorem upload_dir_immediate_children (get : String → Nat)
    (resp : String → Option String) (object target : String)
    (entries : List LocalEntry)
    (hfiles : ∀ e ∈ entries, ∃ n, e = LocalEntry.lfile n) :
    (upload_dir get resp object target entries).1
        = check_folder_exist get object target ∧
    (upload_dir get resp object target entries).2
      = .ok (entries.map (fun e =>
          (e.name, match resp (target ++ "/" ++ e.name) with
                   | none => UpEvent.skippedAlready
                   | some _ => UpEvent.uploaded))) ∧
    ∀ es : List LocalEntry,
      upload_folder resp target es = upload_folder resp target (es.map pruneChildren) := by
  refine ⟨rfl, ?_, ?_⟩
  · show upload_folder resp target entries = _
    induction entries with
    | nil => simp [upload_folder]
    | cons e rest ih =>
        obtain ⟨n, he⟩ := hfiles e (by simp)
        subst he
        have ihr := ih (fun x hx => hfiles x (by simp [hx]))
        rw [upload_folder_cons, ihr]
        cases hr : resp (target ++ "/" ++ (LocalEntry.lfile n).name) with
        | none => simp [LocalEntry.name] at hr ⊢; simp [hr]
        | some u => simp [LocalEntry.name] at hr ⊢; simp [hr]
  · intro es
    induction es with
    | nil => rfl
    | cons e rest ih =>
        cases e with
        | lfile n =>
            rw [List.map_cons, upload_folder_cons, upload_folder_cons, ← ih]
            rfl
        | ldir n cs =>
            rw [List.map_cons, upload_folder_cons, upload_folder_cons, ← ih]
            rfl

theorem upload_dir_immediate_children_witness :
    (∀ e ∈ [LocalEntry.lfile "a.txt", LocalEntry.lfile "b.txt"],
        ∃ n, e = LocalEntry.lfile n) ∧
    (upload_dir (fun _ => 200)
        (fun p => if p = "t/a.txt" then some "u" else none) "t" "t"
        [LocalEntry.lfile "a.txt", LocalEntry.lfile "b.txt"]).2
      = .ok ([LocalEntry.lfile "a.txt", LocalEntry.lfile "b.txt"].map (fun e =>
          (e.name, match (fun p => if p = "t/a.txt" then some "u" else none)
                        ("t" ++ "/" ++ e.name) with
                   | none => UpEvent.skippedAlready
                   | some _ => UpEvent.uploaded))) :=
  ⟨fun e he => by
      rcases List.mem_cons.mp he with h | h
      · exact ⟨"a.txt", h⟩
      · exact ⟨"b.txt", by simpa using h⟩,
   (upload_dir_immediate_children (fun _ => 200)
      (fun p => if p = "t/a.txt" then some "u" else none) "t" "t"
      [LocalEntry.lfile "a.txt", LocalEntry.lfile "b.txt"]
      (fun e he => by
        rcases List.mem_cons.mp he with h | h
        · exact ⟨"a.txt", h⟩
        · exact ⟨"b.txt", by simpa using h⟩)).2.1⟩

/-! ## Reporting dispatch (`find_biggest`, `print_all`, `top10`) -/

/-- One observable side effect of a reporting method (display contents are
abstracted; what matters is whether documentation, entry information, or a
JSON report file was emitted). -/
inductive Effect where
  | printedDoc (doc : String)
  | printedInfo
  | wroteJson (filename : String)
deriving Repr, DecidableEq

/-- The documentation string printed by `find_biggest` for a bad argument. -/
def find_biggest_doc : String :=
  "Метод выводит на экран папку или файл с самым большим размером."

/-- The documentation string of `top10`; the source prints `self.top10.__doc__`
for a bad argument both in `top10` and in `print_all`. -/
def top10_doc : String :=
  "Метод выводит на экран топ-10 самых больших папок или файлов."

/-- Python `max(lst, key=lambda obj: obj.size)`: the first entry of maximal
size; `none` stands for the empty list, on which the source raises
`ValueError`. -/
def max_by_size_file (l : List YaFile) : Option YaFile :=
  l.foldl (fun acc f =>
    match acc with
    | none => some f
    | some g => if f.size > g.size then some f else some g) none

/-- As `max_by_size_file`, for folders. -/
def max_by_size_folder (l : List YaFolder) : Option YaFolder :=
  l.foldl (fun acc f =>
    match acc with
    | none => some f
    | some g => if f.size > g.size then some f else some g) none

/-- Embedding of `find_biggest`: with `obj_type` neither "file" nor "folder"
(including `None`), print the documentation and return `None`; otherwise
write the biggest-entry JSON report and return the entry (raising
`ValueError` on an empty collection, as `max` does).  The catalogue is
returned unchanged in every branch, as the method never writes to it. -/
def find_biggest (cat : Catalogue) (obj_type : Option String) :
    Except String (List Effect × Option (YaFile ⊕ YaFolder) × Catalogue) :=
  if obj_type = none ∨ (obj_type ≠ some "file" ∧ obj_type ≠ some "folder") then
    .ok ([.printedDoc find_biggest_doc], none, cat)
  else if obj_type = some "file" then
    match max_by_size_file cat.all_files with
    | none => .error "ValueError: max arg is an empty sequence"
    | some m => .ok ([.wroteJson "biggest_file_info.json", .printedInfo], some (.inl m), cat)
  else
    match max_by_size_folder cat.all_folders with
    | none => .error "ValueError: max arg is an empty sequence"
    | some m => .ok ([.wroteJson "biggest_folder_info.json", .printedInfo], some (.inr m), cat)

/-- Embedding of `print_all`: with a bad `obj_type` print documentation
(the source prints `top10`s doc here) and return `None`; otherwise print
one line per entry and return the collection.  The catalogue is returned
unchanged in every branch. -/
def print_all (cat : Catalogue) (obj_type : Option String) :
    List Effect × Option (List YaFile ⊕ List YaFolder) × Catalogue :=
  if obj_type = none ∨ (obj_type ≠ some "file" ∧ obj_type ≠ some "folder") then
    ([.printedDoc top10_doc], none, cat)
  else if obj_type = some "file" then
    (cat.all_files.map (fun _ => .printedInfo), some (.inl cat.all_files), cat)
  else
    (cat.all_folders.map (fun _ => .printedInfo), some (.inr cat.all_folders), cat)

/-- As `top10_selection`, for folders. -/
def top10_selection_folders (collection : List YaFolder) : List YaFolder :=
  (collection.mergeSort (fun a b => decide (b.size ≤ a.size))).take 10

/-- Embedding of `top10`: with a bad `obj_type` print its documentation,
otherwise print one line per selected entry; the Python method returns
`print(...)`, i.e. `None`, in every branch, so only the effects and the
(unchanged) catalogue are carried. -/
def top10 (cat : Catalogue) (obj_type : Option String) :
    List Effect × Catalogue :=
  if obj_type = none ∨ (obj_type ≠ some "file" ∧ obj_type ≠ some "folder") then
    ([.printedDoc top10_doc], cat)
  else if obj_type = some "file" then
    ((top10_selection cat.all_files).map (fun _ => .printedInfo), cat)
  else
    ((top10_selection_folders cat.all_folders).map (fun _ => .printedInfo), cat)

/-- C10: for any `obj_type` that is not exactly "file" or "folder"
(including `None`), the three reporting operations print only their
documentation, produce no result object (`None`), never raise, and leave
the catalogue — `all_files` and `all_folders` — exactly as it was. -/
theorem reporting_bad_arg_frame (cat : Catalogue) (obj_type : Option String)
    (hbad : obj_type ≠ some "file" ∧ obj_type ≠ some "folder") :
    find_biggest cat obj_type = .ok ([.printedDoc find_biggest_doc], none, cat) ∧
    print_all cat obj_type = ([.printedDoc top10_doc], none, cat) ∧
    top10 cat obj_type = ([.printedDoc top10_doc], cat) := by
  have hcond : obj_type = none ∨ (obj_type ≠ some "file" ∧ obj_type ≠ some "folder") :=
    Or.inr hbad
  refine ⟨?_, ?_, ?_⟩
  · rw [find_biggest, if_pos hcond]
  · rw [print_all, if_pos hcond]
  · rw [top10, if_pos hcond]

theorem reporting_bad_arg_frame_witness :
    ((some "dir" : Option String) ≠ some "file" ∧ (some "dir" : Option String) ≠ some "folder") ∧
    find_biggest ⟨[⟨"a.txt", ["a.txt"], 3⟩], []⟩ (some "dir")
      = .ok ([.printedDoc find_biggest_doc], none, ⟨[⟨"a.txt", ["a.txt"], 3⟩], []⟩) ∧
    top10 ⟨[⟨"a.txt", ["a.txt"], 3⟩], []⟩ (some "dir")
      = ([.printedDoc top10_doc], ⟨[⟨"a.txt", ["a.txt"], 3⟩], []⟩) :=
  ⟨by decide,
   (reporting_bad_arg_frame ⟨[⟨"a.txt", ["a.txt"], 3⟩], []⟩ (some "dir") (by decide)).1,
   (reporting_bad_arg_frame ⟨[⟨"a.txt", ["a.txt"], 3⟩], []⟩ (some "dir") (by decide)).2.2⟩

end YaDisk
